import Mathlib

/-!
Verification of the Game-of-Life grid engine (`src/lib.rs`).

The Rust code is shallowly embedded: `u32` arithmetic is `Nat` arithmetic
reduced modulo `2^32` wherever the source performs a wrapping `u32`
operation, `Vec<Cell>` is `List Cell`, and every operation that can panic
(out-of-bounds indexing, failed construction) returns an `Option`, with
`none` standing for the panic.
-/

namespace GameOfLife

/-- The modulus of Rust `u32` arithmetic. -/
def u32size : Nat := 4294967296

/-- `Cell` from the source: `Dead = 0`, `Alive = 1`. -/
inductive Cell where
  | Dead
  | Alive
deriving DecidableEq, Repr

/-- `cell as u8`: the numeric value of a cell (`Dead = 0`, `Alive = 1`). -/
def Cell.score : Cell → Nat
  | .Dead => 0
  | .Alive => 1

/-- `Universe` from the source: width, height (`u32`) and the row-major cells. -/
structure Universe where
  width : Nat
  height : Nat
  cells : List Cell
deriving DecidableEq, Repr

/-- `get_index`: `(row * self.width + col) as usize`, with `u32` wrapping. -/
def Universe.get_index (u : Universe) (row col : Nat) : Nat :=
  ((row * u.width) % u32size + col) % u32size

/-- The row offsets `[self.height - 1, 0, 1]`; the subtraction is wrapping `u32`. -/
def deltaRows (u : Universe) : List Nat :=
  [(u.height + (u32size - 1)) % u32size, 0, 1]

/-- The column offsets `[self.width - 1, 0, 1]`; the subtraction is wrapping `u32`. -/
def deltaCols (u : Universe) : List Nat :=
  [(u.width + (u32size - 1)) % u32size, 0, 1]

/-- `live_neighbor_count`: the nested loops over the two delta lists, skipping
the `(0, 0)` pair, accumulating `cells[idx] as u8`; `none` models the panic of
an out-of-bounds `cells[idx]`. -/
def Universe.live_neighbor_count (u : Universe) (row col : Nat) : Option Nat :=
  (deltaRows u).foldlM
    (fun count delta_row =>
      (deltaCols u).foldlM
        (fun count delta_col =>
          if delta_row = 0 ∧ delta_col = 0 then
            some count
          else
            (u.cells[u.get_index (((row + delta_row) % u32size) % u.height)
                (((col + delta_col) % u32size) % u.width)]?).map
              (fun c => count + c.score))
        count)
    0

/-- The `match (cell, live_neighbors)` in `tick`, rule for rule. -/
def nextCellRule (cell : Cell) (live_neighbors : Nat) : Cell :=
  if cell = Cell.Alive ∧ live_neighbors < 2 then Cell.Dead
  else if cell = Cell.Alive ∧ (live_neighbors = 2 ∨ live_neighbors = 3) then Cell.Alive
  else if cell = Cell.Alive ∧ 3 < live_neighbors then Cell.Dead
  else if cell = Cell.Dead ∧ live_neighbors = 3 then Cell.Alive
  else cell

/-- One iteration of `tick`'s inner loop body: read `self.cells[idx]`, count the
live neighbors, write `next[idx]`; `none` models either indexing panic. -/
def Universe.tickBody (u : Universe) (next : List Cell) (row col : Nat) :
    Option (List Cell) :=
  match u.cells[u.get_index row col]? with
  | none => none
  | some cell =>
    match u.live_neighbor_count row col with
    | none => none
    | some live_neighbors =>
      if u.get_index row col < next.length then
        some (next.set (u.get_index row col) (nextCellRule cell live_neighbors))
      else none

/-- `tick`: clone the cells into `next`, loop row-major over all cells, then
replace `self.cells` by `next`. -/
def Universe.tick (u : Universe) : Option Universe :=
  ((List.range u.height).foldlM
      (fun next row =>
        (List.range u.width).foldlM (fun next col => u.tickBody next row col) next)
      u.cells).map
    (fun next => { width := u.width, height := u.height, cells := next })

/-- `new`: validate both dimensions against `[2, 1024]` (panic modelled as
`none`), then seed cell `i` Alive iff `i % 2 == 0 || i % 7 == 0`. -/
def Universe.new (w h : Nat) : Option Universe :=
  if w < 2 ∨ h < 2 then none
  else if 1024 < w ∨ 1024 < h then none
  else some
    { width := w, height := h,
      cells := (List.range (w * h)).map
        (fun i => if i % 2 = 0 ∨ i % 7 = 0 then Cell.Alive else Cell.Dead) }

/-- `set_width`: store the new width and reallocate `width * self.height`
Dead cells; the `u32` product wraps modulo `2^32`. -/
def Universe.set_width (u : Universe) (width : Nat) : Universe :=
  { width := width, height := u.height,
    cells := List.replicate ((width * u.height) % u32size) Cell.Dead }

/-- `set_height`: store the new height and reallocate `self.width * height`
Dead cells; the `u32` product wraps modulo `2^32`. -/
def Universe.set_height (u : Universe) (height : Nat) : Universe :=
  { width := u.width, height := height,
    cells := List.replicate ((u.width * height) % u32size) Cell.Dead }

/-- `set_cells`: for each `(row, col)` pair set `cells[get_index row col]`
to Alive; `none` models the indexing panic. -/
def Universe.set_cells (u : Universe) (coords : List (Nat × Nat)) : Option Universe :=
  (coords.foldlM
      (fun cs p =>
        if u.get_index p.1 p.2 < cs.length then
          some (cs.set (u.get_index p.1 p.2) Cell.Alive)
        else none)
      u.cells).map
    (fun cs => { width := u.width, height := u.height, cells := cs })

/-- The glyph written by `Display::fmt`: `'◻'` for Dead, `'◼'` for Alive. -/
def glyph (cell : Cell) : Char :=
  if cell = Cell.Dead then '◻' else '◼'

/-- `slice::chunks`, fuelled; the fuel is the list length, enough for any
positive chunk width. -/
def chunksGo (w : Nat) : Nat → List Cell → List (List Cell)
  | _, [] => []
  | 0, _ :: _ => []
  | fuel + 1, x :: xs => (x :: xs).take w :: chunksGo w fuel ((x :: xs).drop w)

/-- `self.cells.as_slice().chunks(self.width)`. -/
def chunks (w : Nat) (l : List Cell) : List (List Cell) :=
  chunksGo w l.length l

/-- `render` via `Display::fmt`: one glyph per cell, a `'\n'` after each row of
`width` cells; `chunks(0)` panics in Rust, modelled as `none`. -/
def Universe.render (u : Universe) : Option String :=
  if u.width = 0 then none
  else some (String.join ((chunks u.width u.cells).map
    (fun line => String.mk (line.map glyph) ++ "\n")))

/-- A valid grid: the length invariant plus the constructor's dimension range
(spec §3). -/
def Valid (u : Universe) : Prop :=
  u.cells.length = u.width * u.height ∧
    2 ≤ u.width ∧ u.width ≤ 1024 ∧ 2 ≤ u.height ∧ u.height ≤ 1024

instance : DecidablePred Valid := fun u => by
  unfold Valid
  infer_instance

/-! ### Spec-side definitions (from the spec's words, for the refinement claims) -/

/-- Modelled from the spec: the eight neighbor offsets, each of
`{-1, 0, +1} × {-1, 0, +1}` except `(0, 0)`. -/
def specNeighborOffsets : List (Int × Int) :=
  [(-1, -1), (-1, 0), (-1, 1), (0, -1), (0, 1), (1, -1), (1, 0), (1, 1)]

/-- Modelled from the spec: the cell at a possibly negative (row, col),
wrapped modulo `height` and `width`, read at the row-major index. -/
def specCell (u : Universe) (r c : Int) : Cell :=
  u.cells.getD ((r % (u.height : Int)).toNat * u.width + (c % (u.width : Int)).toNat)
    Cell.Dead

/-- Modelled from the spec: the number of Alive cells among the eight wrapped
neighbors of `(row, col)`. -/
def specLiveNeighborCount (u : Universe) (row col : Nat) : Nat :=
  (specNeighborOffsets.map
    (fun d =>
      if specCell u ((row : Int) + d.1) ((col : Int) + d.2) = Cell.Alive then 1 else 0)).sum

/-- Modelled from the spec: the transition table — Alive with fewer than 2
dies, Alive with 2 or 3 survives, Alive with more than 3 dies, Dead with
exactly 3 is born, anything else is unchanged. -/
def specRule (cell : Cell) (n : Nat) : Cell :=
  if cell = Cell.Alive ∧ n < 2 then Cell.Dead
  else if cell = Cell.Alive ∧ (n = 2 ∨ n = 3) then Cell.Alive
  else if cell = Cell.Alive ∧ 3 < n then Cell.Dead
  else if cell = Cell.Dead ∧ n = 3 then Cell.Alive
  else cell

/-- Modelled from the spec: the synchronous step — every cell's next state is
`specRule` of its state and its live-neighbor count in the pre-update grid. -/
def specStep (u : Universe) : Universe :=
  { width := u.width, height := u.height,
    cells := (List.range u.cells.length).map
      (fun i =>
        specRule (u.cells.getD i Cell.Dead)
          (specLiveNeighborCount u (i / u.width) (i % u.width))) }

/-! ### Arithmetic helpers -/

theorem deltaRows_eq (u : Universe) (h1 : 1 ≤ u.height) (h2 : u.height ≤ 1024) :
    deltaRows u = [u.height - 1, 0, 1] := by
  have e : (u.height + (u32size - 1)) % u32size = u.height - 1 := by
    unfold u32size
    omega
  rw [deltaRows, e]

theorem deltaCols_eq (u : Universe) (h1 : 1 ≤ u.width) (h2 : u.width ≤ 1024) :
    deltaCols u = [u.width - 1, 0, 1] := by
  have e : (u.width + (u32size - 1)) % u32size = u.width - 1 := by
    unfold u32size
    omega
  rw [deltaCols, e]

theorem get_index_eq (u : Universe) (r c : Nat) (h : r * u.width + c < u32size) :
    u.get_index r c = r * u.width + c := by
  unfold Universe.get_index u32size at *
  omega

theorem index_lt (w h a b : Nat) (ha : a < h) (hb : b < w) : a * w + b < w * h := by
  calc a * w + b < a * w + w := by omega
    _ = (a + 1) * w := by ring
    _ ≤ h * w := Nat.mul_le_mul_right w (by omega)
    _ = w * h := Nat.mul_comm h w

/-- The score of the wrapped neighbor of `(row, col)` at nonnegative offset
`(dr, dc)`; the common value both sides of the refinement compute. -/
def nb (u : Universe) (row col dr dc : Nat) : Nat :=
  (u.cells.getD ((row + dr) % u.height * u.width + (col + dc) % u.width) Cell.Dead).score

theorem read_nbr (u : Universe) (hlen : u.cells.length = u.width * u.height)
    (hwle : u.width ≤ 1024) (hhle : u.height ≤ 1024)
    (hw : 0 < u.width) (hh : 0 < u.height)
    (row col dr dc : Nat) (hrow : row + dr ≤ 2047) (hcol : col + dc ≤ 2047) :
    u.cells[u.get_index (((row + dr) % u32size) % u.height)
        (((col + dc) % u32size) % u.width)]? =
      some (u.cells.getD ((row + dr) % u.height * u.width + (col + dc) % u.width)
        Cell.Dead) := by
  have e1 : (row + dr) % u32size = row + dr := by
    unfold u32size
    omega
  have e2 : (col + dc) % u32size = col + dc := by
    unfold u32size
    omega
  have hnr : (row + dr) % u.height < u.height := Nat.mod_lt _ hh
  have hnc : (col + dc) % u.width < u.width := Nat.mod_lt _ hw
  have hidx : (row + dr) % u.height * u.width + (col + dc) % u.width < u.cells.length := by
    rw [hlen]
    exact index_lt _ _ _ _ hnr hnc
  have hbound : (row + dr) % u.height * u.width + (col + dc) % u.width < u32size := by
    have hm : (row + dr) % u.height * u.width ≤ 1023 * 1024 :=
      Nat.mul_le_mul (by omega) hwle
    unfold u32size
    omega
  rw [e1, e2, get_index_eq u _ _ hbound, List.getElem?_eq_getElem hidx,
    List.getD_eq_getElem?_getD, List.getElem?_eq_getElem hidx]
  rfl

theorem live_neighbor_count_eq_nb (u : Universe)
    (hlen : u.cells.length = u.width * u.height)
    (hw2 : 2 ≤ u.width) (hwle : u.width ≤ 1024)
    (hh2 : 2 ≤ u.height) (hhle : u.height ≤ 1024)
    (row col : Nat) (hr : row < u.height) (hc : col < u.width) :
    u.live_neighbor_count row col =
      some (nb u row col (u.height - 1) (u.width - 1) + nb u row col (u.height - 1) 0
        + nb u row col (u.height - 1) 1 + nb u row col 0 (u.width - 1) + nb u row col 0 1
        + nb u row col 1 (u.width - 1) + nb u row col 1 0 + nb u row col 1 1) := by
  have hw : 0 < u.width := by omega
  have hh : 0 < u.height := by omega
  have hb1 : row + (u.height - 1) ≤ 2047 := by omega
  have hb2 : row + 0 ≤ 2047 := by omega
  have hb3 : row + 1 ≤ 2047 := by omega
  have hc1 : col + (u.width - 1) ≤ 2047 := by omega
  have hc2 : col + 0 ≤ 2047 := by omega
  have hc3 : col + 1 ≤ 2047 := by omega
  have rAA := read_nbr u hlen hwle hhle hw hh row col (u.height - 1) (u.width - 1) hb1 hc1
  have rAB := read_nbr u hlen hwle hhle hw hh row col (u.height - 1) 0 hb1 hc2
  have rAC := read_nbr u hlen hwle hhle hw hh row col (u.height - 1) 1 hb1 hc3
  have rBA := read_nbr u hlen hwle hhle hw hh row col 0 (u.width - 1) hb2 hc1
  have rBC := read_nbr u hlen hwle hhle hw hh row col 0 1 hb2 hc3
  have rCA := read_nbr u hlen hwle hhle hw hh row col 1 (u.width - 1) hb3 hc1
  have rCB := read_nbr u hlen hwle hhle hw hh row col 1 0 hb3 hc2
  have rCC := read_nbr u hlen hwle hhle hw hh row col 1 1 hb3 hc3
  simp only [Nat.add_zero] at rAA rAB rAC rBA rBC rCA rCB rCC
  have hne : ¬(u.height - 1 = 0) := by omega
  have hwne : ¬(u.width - 1 = 0) := by omega
  unfold Universe.live_neighbor_count
  simp only [deltaRows_eq u (by omega) hhle, deltaCols_eq u (by omega) hwle]
  simp [List.foldlM_cons, List.foldlM_nil, hne, hwne,
    rAA, rAB, rAC, rBA, rBC, rCA, rCB, rCC, nb]

theorem wrap_zero (r h : Nat) : (((r : Int) + 0) % (h : Int)).toNat = (r + 0) % h := by
  rw [show ((r : Int) + 0) = ((r + 0 : Nat) : Int) by push_cast; ring, ← Int.ofNat_emod]
  exact Int.toNat_ofNat _

theorem wrap_one (r h : Nat) : (((r : Int) + 1) % (h : Int)).toNat = (r + 1) % h := by
  rw [show ((r : Int) + 1) = ((r + 1 : Nat) : Int) by push_cast; ring, ← Int.ofNat_emod]
  exact Int.toNat_ofNat _

theorem wrap_neg (r h : Nat) (h1 : 1 ≤ h) :
    (((r : Int) + -1) % (h : Int)).toNat = (r + (h - 1)) % h := by
  have e : ((r : Int) + -1) % (h : Int) = ((r : Int) + -1 + h * 1) % (h : Int) :=
    (Int.add_mul_emod_self_left _ _ _).symm
  have e2 : ((r : Int) + -1 + h * 1) = ((r + (h - 1) : Nat) : Int) := by
    push_cast [Nat.cast_sub h1]
    ring
  rw [e, e2, ← Int.ofNat_emod]
  exact Int.toNat_ofNat _

theorem score_ite (c : Cell) : (if c = Cell.Alive then 1 else 0) = c.score := by
  cases c <;> rfl

theorem specLiveNeighborCount_eq_nb (u : Universe)
    (hw2 : 2 ≤ u.width) (hh2 : 2 ≤ u.height) (row col : Nat) :
    specLiveNeighborCount u row col =
      nb u row col (u.height - 1) (u.width - 1) + nb u row col (u.height - 1) 0
      + nb u row col (u.height - 1) 1 + nb u row col 0 (u.width - 1) + nb u row col 0 1
      + nb u row col 1 (u.width - 1) + nb u row col 1 0 + nb u row col 1 1 := by
  unfold specLiveNeighborCount specNeighborOffsets specCell nb
  simp only [List.map_cons, List.map_nil, List.sum_cons, List.sum_nil]
  dsimp only
  rw [wrap_neg row u.height (by omega), wrap_neg col u.width (by omega),
    wrap_zero row u.height, wrap_zero col u.width,
    wrap_one row u.height, wrap_one col u.width]
  simp only [score_ite]
  omega

theorem live_neighbor_count_eq_spec (u : Universe) (hv : Valid u)
    (row col : Nat) (hr : row < u.height) (hc : col < u.width) :
    u.live_neighbor_count row col = some (specLiveNeighborCount u row col) := by
  obtain ⟨hlen, hw2, hwle, hh2, hhle⟩ := hv
  rw [live_neighbor_count_eq_nb u hlen hw2 hwle hh2 hhle row col hr hc,
    specLiveNeighborCount_eq_nb u hw2 hh2 row col]

theorem nextCellRule_eq_specRule : nextCellRule = specRule := rfl

/-- The value `tick` writes at index `i`: the common target of the code and the
spec step. -/
def targetCell (u : Universe) (i : Nat) : Cell :=
  specRule (u.cells.getD i Cell.Dead)
    (specLiveNeighborCount u (i / u.width) (i % u.width))

theorem specStep_cells (u : Universe) :
    (specStep u).cells = (List.range u.cells.length).map (targetCell u) := rfl

theorem tickBody_eq (u : Universe) (hv : Valid u) (next : List Cell)
    (hnext : next.length = u.cells.length) (r c : Nat)
    (hr : r < u.height) (hc : c < u.width) :
    u.tickBody next r c =
      some (next.set (r * u.width + c) (targetCell u (r * u.width + c))) := by
  obtain ⟨hlen, hw2, hwle, hh2, hhle⟩ := hv
  have hidx : r * u.width + c < u.cells.length := by
    rw [hlen]
    exact index_lt _ _ _ _ hr hc
  have hbound : r * u.width + c < u32size := by
    have hm : r * u.width ≤ 1023 * 1024 := Nat.mul_le_mul (by omega) hwle
    unfold u32size
    omega
  have hgi : u.get_index r c = r * u.width + c := get_index_eq u r c hbound
  have hdiv : (r * u.width + c) / u.width = r := by
    rw [Nat.mul_comm r u.width, Nat.mul_add_div (by omega), Nat.div_eq_of_lt hc,
      Nat.add_zero]
  have hmod : (r * u.width + c) % u.width = c := by
    rw [Nat.mul_comm r u.width, Nat.mul_add_mod]
    exact Nat.mod_eq_of_lt hc
  have hread : u.cells[r * u.width + c]? = some (u.cells.getD (r * u.width + c) Cell.Dead) := by
    rw [List.getElem?_eq_getElem hidx, List.getD_eq_getElem?_getD,
      List.getElem?_eq_getElem hidx]
    rfl
  unfold Universe.tickBody
  rw [hgi, hread, live_neighbor_count_eq_spec u ⟨hlen, hw2, hwle, hh2, hhle⟩ r c hr hc]
  dsimp only
  rw [if_pos (by omega : r * u.width + c < next.length)]
  rw [nextCellRule_eq_specRule]
  unfold targetCell
  rw [hdiv, hmod]

theorem col_fold (u : Universe) (hv : Valid u) (r : Nat) (hr : r < u.height) :
    ∀ cols : Nat, cols ≤ u.width → ∀ next : List Cell, next.length = u.cells.length →
      ∃ nx, (List.range cols).foldlM (fun next col => u.tickBody next r col) next = some nx ∧
        nx.length = u.cells.length ∧
        (∀ i, i < u.cells.length →
          nx.getD i Cell.Dead =
            if r * u.width ≤ i ∧ i < r * u.width + cols then targetCell u i
            else next.getD i Cell.Dead) := by
  intro cols
  induction cols with
  | zero =>
    intro _ next hnext
    refine ⟨next, by simp, hnext, ?_⟩
    intro i hi
    rw [if_neg (by omega)]
  | succ n ih =>
    intro hle next hnext
    obtain ⟨nx1, hfold, hlen1, hchar⟩ := ih (by omega) next hnext
    have hcn : n < u.width := by omega
    have hbody := tickBody_eq u hv nx1 hlen1 r n hr hcn
    have hsetidx : r * u.width + n < nx1.length := by
      rw [hlen1, hv.1]
      exact index_lt _ _ _ _ hr hcn
    refine ⟨nx1.set (r * u.width + n) (targetCell u (r * u.width + n)), ?_, by
      rw [List.length_set]
      exact hlen1, ?_⟩
    · rw [List.range_succ, List.foldlM_append, hfold]
      simp [List.foldlM_cons, List.foldlM_nil, hbody]
    · intro i hi
      by_cases hcase : i = r * u.width + n
      · subst hcase
        rw [if_pos (by omega), List.getD_eq_getElem?_getD,
          List.getElem?_set_self hsetidx]
        rfl
      · rw [List.getD_eq_getElem?_getD,
          List.getElem?_set_ne (fun h => hcase h.symm), ← List.getD_eq_getElem?_getD,
          hchar i hi]
        by_cases hin : r * u.width ≤ i ∧ i < r * u.width + n
        · rw [if_pos hin, if_pos (by omega)]
        · rw [if_neg hin, if_neg (by omega)]

theorem row_fold (u : Universe) (hv : Valid u) :
    ∀ rows : Nat, rows ≤ u.height →
      ∃ nx, (List.range rows).foldlM
          (fun next row =>
            (List.range u.width).foldlM (fun next col => u.tickBody next row col) next)
          u.cells = some nx ∧
        nx.length = u.cells.length ∧
        (∀ i, i < u.cells.length →
          nx.getD i Cell.Dead =
            if i < rows * u.width then targetCell u i else u.cells.getD i Cell.Dead) := by
  intro rows
  induction rows with
  | zero =>
    intro _
    refine ⟨u.cells, by simp, rfl, ?_⟩
    intro i hi
    rw [if_neg (by omega)]
  | succ n ih =>
    intro hle
    obtain ⟨nx1, hfold, hlen1, hchar⟩ := ih (by omega)
    have hrn : n < u.height := by omega
    obtain ⟨nx2, hfold2, hlen2, hchar2⟩ := col_fold u hv n hrn u.width le_rfl nx1 hlen1
    refine ⟨nx2, ?_, hlen2, ?_⟩
    · rw [List.range_succ, List.foldlM_append, hfold]
      simp only [Option.pure_def, Option.bind_eq_bind, Option.some_bind,
        List.foldlM_cons, List.foldlM_nil]
      rw [hfold2]
      rfl
    · intro i hi
      have hmul : (n + 1) * u.width = n * u.width + u.width := by ring
      rw [hchar2 i hi, hmul]
      by_cases hin : n * u.width ≤ i ∧ i < n * u.width + u.width
      · rw [if_pos hin, if_pos (by omega)]
      · rw [if_neg hin, hchar i hi]
        by_cases hlt : i < n * u.width
        · rw [if_pos hlt, if_pos (by omega)]
        · rw [if_neg hlt, if_neg (by omega)]

theorem tick_eq_specStep (u : Universe) (hv : Valid u) : u.tick = some (specStep u) := by
  obtain ⟨nx, hfold, hlenx, hchar⟩ := row_fold u hv u.height le_rfl
  unfold Universe.tick
  rw [hfold]
  have hcells : nx = (specStep u).cells := by
    rw [specStep_cells]
    apply List.ext_getElem
    · rw [hlenx, List.length_map, List.length_range]
    · intro i h1 h2
      have hi : i < u.cells.length := by
        rw [hlenx] at h1
        exact h1
      have hgd := hchar i hi
      have hhw : i < u.height * u.width := by
        have hi2 := hi
        rw [hv.1, Nat.mul_comm] at hi2
        exact hi2
      rw [if_pos hhw] at hgd
      have e1 : nx[i] = nx.getD i Cell.Dead := by
        rw [List.getD_eq_getElem?_getD, List.getElem?_eq_getElem h1]
        rfl
      rw [e1, hgd, List.getElem_map, List.getElem_range]
  rw [hcells]
  rfl

theorem foldlM_some_preserves {α β : Type} (P : β → Prop) (f : β → α → Option β)
    (hf : ∀ b a b', P b → f b a = some b' → P b') :
    ∀ (l : List α) (b b' : β), P b → l.foldlM f b = some b' → P b' := by
  intro l
  induction l with
  | nil =>
    intro b b' hb h
    simp only [List.foldlM_nil, Option.pure_def, Option.some.injEq] at h
    exact h ▸ hb
  | cons a l ih =>
    intro b b' hb h
    rw [List.foldlM_cons] at h
    cases hfa : f b a with
    | none =>
      rw [hfa] at h
      simp at h
    | some b1 =>
      rw [hfa] at h
      simp only [Option.bind_eq_bind, Option.some_bind] at h
      exact ih b1 b' (hf b a b1 hb hfa) h

theorem tickBody_length (u : Universe) (next nx : List Cell) (r c : Nat)
    (h : u.tickBody next r c = some nx) : nx.length = next.length := by
  unfold Universe.tickBody at h
  cases hx : u.cells[u.get_index r c]? with
  | none =>
    rw [hx] at h
    exact absurd h (by simp)
  | some cell =>
    rw [hx] at h
    cases hl : u.live_neighbor_count r c with
    | none =>
      rw [hl] at h
      exact absurd h (by simp)
    | some live =>
      rw [hl] at h
      dsimp only at h
      split at h
      · cases h
        exact List.length_set next _ _
      · exact absurd h (by simp)

/-- Any successful `tick` keeps the dimensions and the cell count. -/
theorem tick_dims_length (u v : Universe) (h : u.tick = some v) :
    v.width = u.width ∧ v.height = u.height ∧ v.cells.length = u.cells.length := by
  unfold Universe.tick at h
  rw [Option.map_eq_some'] at h
  obtain ⟨nx, hnx, hv⟩ := h
  have hlen : nx.length = u.cells.length := by
    refine foldlM_some_preserves (fun l => l.length = u.cells.length) _ ?_ _ _ _ rfl hnx
    intro b r b' hb hrow
    have := foldlM_some_preserves (fun l => l.length = b.length)
      (fun next col => u.tickBody next r col)
      (fun b2 c b2' hb2 hstep => by
        show b2'.length = b.length
        rw [tickBody_length u b2 b2' r c hstep]
        exact hb2)
      _ b b' rfl hrow
    rw [this, hb]
  rw [← hv]
  exact ⟨rfl, rfl, hlen⟩

/-- Any successful `set_cells` keeps the dimensions and the cell count. -/
theorem set_cells_dims_length (u : Universe) (coords : List (Nat × Nat)) (v : Universe)
    (h : u.set_cells coords = some v) :
    v.width = u.width ∧ v.height = u.height ∧ v.cells.length = u.cells.length := by
  unfold Universe.set_cells at h
  rw [Option.map_eq_some'] at h
  obtain ⟨cs, hcs, hv⟩ := h
  have hlen : cs.length = u.cells.length := by
    refine foldlM_some_preserves (fun l => l.length = u.cells.length) _ ?_ _ _ _ rfl hcs
    intro b p b' hb hstep
    split at hstep
    · cases hstep
      rw [List.length_set, hb]
    · exact absurd hstep (by simp)
  rw [← hv]
  exact ⟨rfl, rfl, hlen⟩

theorem set_cells_fold (u : Universe) (hv : Valid u) :
    ∀ coords : List (Nat × Nat), (∀ p ∈ coords, p.1 < u.height ∧ p.2 < u.width) →
      ∀ cs : List Cell, cs.length = u.cells.length →
      ∃ out, coords.foldlM
          (fun cs p =>
            if u.get_index p.1 p.2 < cs.length then
              some (cs.set (u.get_index p.1 p.2) Cell.Alive)
            else none) cs = some out ∧
        out.length = cs.length ∧
        (∀ i, (∀ p ∈ coords, u.get_index p.1 p.2 ≠ i) →
          out.getD i Cell.Dead = cs.getD i Cell.Dead) ∧
        (∀ p ∈ coords, out.getD (u.get_index p.1 p.2) Cell.Dead = Cell.Alive) := by
  obtain ⟨hlen0, hw2, hwle, hh2, hhle⟩ := hv
  intro coords
  induction coords with
  | nil =>
    intro _ cs hcs
    exact ⟨cs, by simp, rfl, fun i _ => rfl, by simp⟩
  | cons p ps ih =>
    intro hin cs hcs
    have hp := hin p (by simp)
    have hps : ∀ q ∈ ps, q.1 < u.height ∧ q.2 < u.width :=
      fun q hq => hin q (by simp [hq])
    have hbound : p.1 * u.width + p.2 < u32size := by
      have hm : p.1 * u.width ≤ 1023 * 1024 := Nat.mul_le_mul (by omega) hwle
      have h2 : p.2 < u.width := hp.2
      unfold u32size
      omega
    have hgi : u.get_index p.1 p.2 = p.1 * u.width + p.2 := get_index_eq u _ _ hbound
    have hidx : u.get_index p.1 p.2 < cs.length := by
      rw [hcs, hlen0, hgi]
      exact index_lt _ _ _ _ hp.1 hp.2
    obtain ⟨out, hfold, hlen, hframe, halive⟩ :=
      ih hps (cs.set (u.get_index p.1 p.2) Cell.Alive)
        (by rw [List.length_set]; exact hcs)
    refine ⟨out, ?_, by rw [hlen, List.length_set], ?_, ?_⟩
    · rw [List.foldlM_cons, if_pos hidx]
      simp only [Option.bind_eq_bind, Option.some_bind]
      exact hfold
    · intro i hi
      rw [hframe i (fun q hq => hi q (by simp [hq])), List.getD_eq_getElem?_getD,
        List.getElem?_set_ne (hi p (by simp)), ← List.getD_eq_getElem?_getD]
    · intro q hq
      rcases List.mem_cons.mp hq with rfl | hq'
      · by_cases hrep : ∀ q' ∈ ps, u.get_index q'.1 q'.2 ≠ u.get_index q.1 q.2
        · rw [hframe _ hrep, List.getD_eq_getElem?_getD, List.getElem?_set_self hidx]
          rfl
        · push_neg at hrep
          obtain ⟨q', hq'mem, heq⟩ := hrep
          rw [← heq]
          exact halive q' hq'mem
      · exact halive q hq'

theorem chunksGo_spec (w : Nat) (hw : 0 < w) :
    ∀ (k : Nat) (l : List Cell) (fuel : Nat), l.length = k * w → l.length ≤ fuel →
      (chunksGo w fuel l).length = k ∧ ∀ r ∈ chunksGo w fuel l, r.length = w := by
  intro k
  induction k with
  | zero =>
    intro l fuel hl hf
    have he : l = [] := List.eq_nil_of_length_eq_zero (by omega)
    subst he
    cases fuel <;> simp [chunksGo]
  | succ m ih =>
    intro l fuel hl hf
    have hpos : 0 < l.length := by
      have hm : 0 < (m + 1) * w := Nat.mul_pos (by omega) hw
      omega
    cases l with
    | nil => simp at hpos
    | cons x xs =>
      cases fuel with
      | zero =>
        rw [List.length_cons] at hf
        omega
      | succ f =>
        have hmul : (m + 1) * w = m * w + w := by ring
        have hxl : (x :: xs).length = m * w + w := by rw [hl, hmul]
        have hdl : ((x :: xs).drop w).length = m * w := by
          rw [List.length_drop, hxl]
          omega
        have hdf : ((x :: xs).drop w).length ≤ f := by
          rw [List.length_drop]
          omega
        obtain ⟨hklen, hall⟩ := ih ((x :: xs).drop w) f hdl hdf
        constructor
        · simp only [chunksGo, List.length_cons, hklen]
        · intro r hr
          simp only [chunksGo] at hr
          rcases List.mem_cons.mp hr with rfl | hr'
          · rw [List.length_take, hxl]
            omega
          · exact hall r hr'

theorem chunks_spec (w : Nat) (hw : 0 < w) (k : Nat) (l : List Cell)
    (hl : l.length = k * w) :
    (chunks w l).length = k ∧ ∀ r ∈ chunks w l, r.length = w :=
  chunksGo_spec w hw k l l.length hl le_rfl

/-- Iterated `tick`: `advance` called `n` times in sequence. -/
def tick_iter : Nat → Universe → Option Universe
  | 0, u => some u
  | n + 1, u => (u.tick).bind (tick_iter n)

/-! ### Concrete fixtures -/

/-- The grid `new 2 2` constructs: seed pattern `[Alive, Dead, Alive, Dead]`. -/
def u22 : Universe :=
  { width := 2, height := 2, cells := [Cell.Alive, Cell.Dead, Cell.Alive, Cell.Dead] }

/-- A 3×3 grid holding the five-cell plus: center and its four orthogonal
neighbors Alive. -/
def plus3 : Universe :=
  { width := 3, height := 3,
    cells := [Cell.Dead, Cell.Alive, Cell.Dead,
              Cell.Alive, Cell.Alive, Cell.Alive,
              Cell.Dead, Cell.Alive, Cell.Dead] }

/-- A 5×5 grid holding the five-cell plus centered at (2, 2). -/
def plus5 : Universe :=
  { width := 5, height := 5,
    cells := [Cell.Dead, Cell.Dead, Cell.Dead, Cell.Dead, Cell.Dead,
              Cell.Dead, Cell.Dead, Cell.Alive, Cell.Dead, Cell.Dead,
              Cell.Dead, Cell.Alive, Cell.Alive, Cell.Alive, Cell.Dead,
              Cell.Dead, Cell.Dead, Cell.Alive, Cell.Dead, Cell.Dead,
              Cell.Dead, Cell.Dead, Cell.Dead, Cell.Dead, Cell.Dead] }

/-- The eight-cell ring the plus turns into on 5×5: the four arms survive and
the four corners of the pattern's 3×3 bounding box are born; the center dies. -/
def diamond5 : Universe :=
  { width := 5, height := 5,
    cells := [Cell.Dead, Cell.Dead, Cell.Dead, Cell.Dead, Cell.Dead,
              Cell.Dead, Cell.Alive, Cell.Alive, Cell.Alive, Cell.Dead,
              Cell.Dead, Cell.Alive, Cell.Dead, Cell.Alive, Cell.Dead,
              Cell.Dead, Cell.Alive, Cell.Alive, Cell.Alive, Cell.Dead,
              Cell.Dead, Cell.Dead, Cell.Dead, Cell.Dead, Cell.Dead] }

/-- A 4×4 grid whose only Alive cells are the centered 2×2 block: the canonical
still-life test grid. -/
def block4 : Universe :=
  { width := 4, height := 4,
    cells := [Cell.Dead, Cell.Dead, Cell.Dead, Cell.Dead,
              Cell.Dead, Cell.Alive, Cell.Alive, Cell.Dead,
              Cell.Dead, Cell.Alive, Cell.Alive, Cell.Dead,
              Cell.Dead, Cell.Dead, Cell.Dead, Cell.Dead] }

/-- The 2×2 grid entirely filled by a 2×2 block of Alive cells. -/
def b22 : Universe :=
  { width := 2, height := 2,
    cells := [Cell.Alive, Cell.Alive, Cell.Alive, Cell.Alive] }

/-- Six cells shared by the two render fixtures. -/
def cells6 : List Cell :=
  [Cell.Alive, Cell.Dead, Cell.Dead, Cell.Dead, Cell.Dead, Cell.Dead]

/-- `cells6` arranged 2 wide and 3 high. -/
def uRA : Universe := { width := 2, height := 3, cells := cells6 }

/-- `cells6` arranged 3 wide and 2 high. -/
def uRB : Universe := { width := 3, height := 2, cells := cells6 }

/-! ### Claim theorems -/

/-- C1: one `tick` on a valid grid replaces the cell sequence with exactly the
synchronous Game-of-Life step on the torus: every cell's next state is the
rule table applied to its pre-update state and its live-neighbor count over
the eight wrapped offsets, all counts taken in the pre-update grid. -/
theorem tick_refines_synchronous_step (u : Universe) (hv : Valid u) :
    u.tick = some (specStep u) :=
  tick_eq_specStep u hv

theorem tick_refines_synchronous_step_witness :
    Valid u22 ∧ Universe.tick u22 = some (specStep u22) :=
  ⟨by decide, tick_refines_synchronous_step u22 (by decide)⟩

/-- C2: for in-range dimensions, `new` yields `width * height` cells and cell
`i` is Alive exactly when `i % 2 = 0` or `i % 7 = 0`. -/
theorem new_seeds_parity_pattern (w h : Nat) (hw1 : 2 ≤ w) (hw2 : w ≤ 1024)
    (hh1 : 2 ≤ h) (hh2 : h ≤ 1024) :
    ∃ u, Universe.new w h = some u ∧ u.cells.length = w * h ∧
      ∀ i, i < w * h →
        (u.cells.getD i Cell.Dead = Cell.Alive ↔ i % 2 = 0 ∨ i % 7 = 0) := by
  refine ⟨Universe.mk w h ((List.range (w * h)).map
    (fun i => if i % 2 = 0 ∨ i % 7 = 0 then Cell.Alive else Cell.Dead)), ?_, ?_, ?_⟩
  · unfold Universe.new
    rw [if_neg (by omega), if_neg (by omega)]
  · simp
  · intro i hi
    have hi' : i < ((List.range (w * h)).map
        (fun i => if i % 2 = 0 ∨ i % 7 = 0 then Cell.Alive else Cell.Dead)).length := by
      simp [hi]
    rw [List.getD_eq_getElem?_getD, List.getElem?_eq_getElem hi', Option.getD_some,
      List.getElem_map, List.getElem_range]
    by_cases hc : i % 2 = 0 ∨ i % 7 = 0 <;> simp [hc]

theorem new_seeds_parity_pattern_witness :
    ∃ u, Universe.new 3 2 = some u ∧ u.cells.length = 3 * 2 ∧
      ∀ i, i < 3 * 2 →
        (u.cells.getD i Cell.Dead = Cell.Alive ↔ i % 2 = 0 ∨ i % 7 = 0) :=
  new_seeds_parity_pattern 3 2 (by decide) (by decide) (by decide) (by decide)

/-- C3: `new` fails (panics, modelled as `none`) exactly when a dimension lies
outside `[2, 1024]`; every in-range pair succeeds, and on failure no grid
exists at all. -/
theorem new_fails_iff_dimensions_out_of_range (w h : Nat) :
    Universe.new w h = none ↔ w < 2 ∨ h < 2 ∨ 1024 < w ∨ 1024 < h := by
  unfold Universe.new
  split_ifs with h1 h2 <;> simp <;> omega

/-- C9: `tick` is total on every valid grid: it cannot fail, because every
index it computes — the wrapped neighbor indices included — is in bounds
(an out-of-bounds access would surface as `none` in this model). -/
theorem tick_total_on_valid_grids (u : Universe) (hv : Valid u) :
    ∃ v, u.tick = some v :=
  ⟨specStep u, tick_eq_specStep u hv⟩

theorem tick_total_on_valid_grids_witness :
    ∃ v, Universe.tick block4 = some v :=
  tick_total_on_valid_grids block4 (by decide)

/-- C10: `tick` and `set_cells` keep width and height; `set_cells` with
in-bounds coordinates succeeds, leaves every unaddressed cell unchanged and
sets every addressed cell to Alive (never to Dead). -/
theorem tick_set_cells_frame (u : Universe) (coords : List (Nat × Nat))
    (hv : Valid u) (hcoords : ∀ p ∈ coords, p.1 < u.height ∧ p.2 < u.width) :
    (∀ v, u.tick = some v → v.width = u.width ∧ v.height = u.height) ∧
    ∃ v, u.set_cells coords = some v ∧ v.width = u.width ∧ v.height = u.height ∧
      v.cells.length = u.cells.length ∧
      (∀ i, (∀ p ∈ coords, u.get_index p.1 p.2 ≠ i) →
        v.cells.getD i Cell.Dead = u.cells.getD i Cell.Dead) ∧
      (∀ p ∈ coords, v.cells.getD (u.get_index p.1 p.2) Cell.Dead = Cell.Alive) := by
  constructor
  · intro v hvtick
    exact ⟨(tick_dims_length u v hvtick).1, (tick_dims_length u v hvtick).2.1⟩
  · obtain ⟨out, hfold, hlen, hframe, halive⟩ :=
      set_cells_fold u hv coords hcoords u.cells rfl
    refine ⟨{ width := u.width, height := u.height, cells := out }, ?_, rfl, rfl,
      hlen, hframe, halive⟩
    unfold Universe.set_cells
    rw [hfold]
    rfl

theorem tick_set_cells_frame_witness :
    (∀ v, Universe.tick u22 = some v → v.width = u22.width ∧ v.height = u22.height) ∧
    ∃ v, u22.set_cells [(0, 1)] = some v ∧ v.width = u22.width ∧
      v.height = u22.height ∧ v.cells.length = u22.cells.length ∧
      (∀ i, (∀ p ∈ [((0 : Nat), (1 : Nat))], u22.get_index p.1 p.2 ≠ i) →
        v.cells.getD i Cell.Dead = u22.cells.getD i Cell.Dead) ∧
      (∀ p ∈ [((0 : Nat), (1 : Nat))],
        v.cells.getD (u22.get_index p.1 p.2) Cell.Dead = Cell.Alive) :=
  tick_set_cells_frame u22 [(0, 1)] (by decide) (by decide)

/-- C4 counterexample: the length invariant survives construction but not an
overflowing resize: after `set_width 2147483648` on the 2×2 grid the `u32`
product `2147483648 * 2` wraps to 0, so the grid has 0 cells while
`width * height = 2^33`. -/
theorem grid_length_invariant_cex :
    Universe.new 2 2 = some u22 ∧
    ¬((u22.set_width 2147483648).cells.length =
        (u22.set_width 2147483648).width * (u22.set_width 2147483648).height) := by
  constructor
  · decide
  · decide

/-- C4 (amended): the invariant `cells.length = width * height` holds after
`new` and is preserved by `tick` and `set_cells`; `set_width`/`set_height`
re-establish it by replacing the whole sequence, provided the `u32` product
for the new size does not overflow. -/
theorem grid_length_invariant :
    (∀ (w h : Nat) (u : Universe),
      Universe.new w h = some u → u.cells.length = u.width * u.height) ∧
    (∀ u v : Universe, u.cells.length = u.width * u.height → u.tick = some v →
      v.cells.length = v.width * v.height) ∧
    (∀ (u : Universe) (coords : List (Nat × Nat)) (v : Universe),
      u.cells.length = u.width * u.height → u.set_cells coords = some v →
      v.cells.length = v.width * v.height) ∧
    (∀ (u : Universe) (w' : Nat), (u.set_width w').cells =
        List.replicate ((w' * u.height) % u32size) Cell.Dead ∧
      (w' * u.height < u32size →
        (u.set_width w').cells.length = (u.set_width w').width * (u.set_width w').height)) ∧
    (∀ (u : Universe) (h' : Nat), (u.set_height h').cells =
        List.replicate ((u.width * h') % u32size) Cell.Dead ∧
      (u.width * h' < u32size →
        (u.set_height h').cells.length =
          (u.set_height h').width * (u.set_height h').height)) := by
  refine ⟨?_, ?_, ?_, ?_, ?_⟩
  · intro w h u hnew
    unfold Universe.new at hnew
    split_ifs at hnew
    simp only [Option.some.injEq] at hnew
    subst hnew
    simp
  · intro u v hu htick
    obtain ⟨hw, hh, hl⟩ := tick_dims_length u v htick
    rw [hl, hu, hw, hh]
  · intro u coords v hu hsc
    obtain ⟨hw, hh, hl⟩ := set_cells_dims_length u coords v hsc
    rw [hl, hu, hw, hh]
  · intro u w'
    refine ⟨rfl, fun hov => ?_⟩
    show (List.replicate ((w' * u.height) % u32size) Cell.Dead).length = w' * u.height
    rw [List.length_replicate, Nat.mod_eq_of_lt hov]
  · intro u h'
    refine ⟨rfl, fun hov => ?_⟩
    show (List.replicate ((u.width * h') % u32size) Cell.Dead).length = u.width * h'
    rw [List.length_replicate, Nat.mod_eq_of_lt hov]

/-- C5 counterexample: on the 3×3 torus every cell of the grid is every other
cell's neighbor, so one `tick` of the plus kills all nine cells — corner
(0, 0) ends Dead, not Alive as the claim demands. -/
theorem plus_on_3x3_torus_dies :
    Universe.tick plus3 =
      some { width := 3, height := 3, cells := List.replicate 9 Cell.Dead } ∧
    (Universe.tick plus3).map (fun v => v.cells.getD 0 Cell.Dead) ≠ some Cell.Alive := by
  constructor
  · decide
  · decide

/-- C5 (amended): on the 3×3 torus one advance of the plus yields the all-Dead
grid; the plus-to-diamond transition (four bounding-box corners born, center
dies) appears on a torus big enough not to reconnect the pattern, e.g. 5×5. -/
theorem plus_to_diamond :
    Universe.tick plus3 =
      some { width := 3, height := 3, cells := List.replicate 9 Cell.Dead } ∧
    Universe.tick plus5 = some diamond5 := by
  constructor
  · decide
  · decide

/-- C6 counterexample: the 2×2 grid whose only Alive cells form a 2×2 block is
a valid grid, yet one advance kills it (every cell counts every other cell
four, two and two times over, seeing 8 live neighbors), so the block is not a
fixed point there. -/
theorem block_on_2x2_torus_dies :
    Valid b22 ∧
    Universe.tick b22 =
      some { width := 2, height := 2, cells := List.replicate 4 Cell.Dead } ∧
    Universe.tick b22 ≠ some b22 := by
  refine ⟨by decide, by decide, by decide⟩

/-- C6 (amended): on the canonical 4×4 still-life grid (a centered 2×2 block,
whose neighborhood the torus does not fold onto itself) `advance` is the
identity: one tick returns the grid unchanged, hence so does any number of
ticks — in particular 5 or more. -/
theorem block4_still_life :
    Universe.tick block4 = some block4 ∧ ∀ n, tick_iter n block4 = some block4 := by
  have h1 : Universe.tick block4 = some block4 := by decide
  refine ⟨h1, ?_⟩
  intro n
  induction n with
  | zero => rfl
  | succ m ih =>
    show (Universe.tick block4).bind (tick_iter m) = some block4
    rw [h1, Option.some_bind]
    exact ih

/-- C7 counterexample: `set_width 2147483648` on the 2×2 grid does not produce
`2147483648 * 2` cells — the `u32` product wraps to 0 and the grid ends
empty. -/
theorem destructive_resize_cex :
    ¬((u22.set_width 2147483648).cells.length = 2147483648 * u22.height) := by
  decide

/-- C7 (amended): `set_width`/`set_height` store the new dimension unchecked
(no bounds validation) and rebuild the cells as all-Dead of size
`new_width * old_height` (resp. `old_width * new_height`) taken modulo `2^32`;
when that product does not overflow the count is exactly the product. -/
theorem destructive_resize (u : Universe) (w' h' : Nat) :
    ((u.set_width w').width = w' ∧ (u.set_width w').height = u.height ∧
      (∀ c ∈ (u.set_width w').cells, c = Cell.Dead) ∧
      (u.set_width w').cells.length = (w' * u.height) % u32size ∧
      (w' * u.height < u32size → (u.set_width w').cells.length = w' * u.height)) ∧
    ((u.set_height h').width = u.width ∧ (u.set_height h').height = h' ∧
      (∀ c ∈ (u.set_height h').cells, c = Cell.Dead) ∧
      (u.set_height h').cells.length = (u.width * h') % u32size ∧
      (u.width * h' < u32size → (u.set_height h').cells.length = u.width * h')) := by
  refine ⟨⟨rfl, rfl, ?_, by simp [Universe.set_width], ?_⟩,
    ⟨rfl, rfl, ?_, by simp [Universe.set_height], ?_⟩⟩
  · intro c hc
    exact List.eq_of_mem_replicate hc
  · intro hov
    show (List.replicate ((w' * u.height) % u32size) Cell.Dead).length = w' * u.height
    rw [List.length_replicate, Nat.mod_eq_of_lt hov]
  · intro c hc
    exact List.eq_of_mem_replicate hc
  · intro hov
    show (List.replicate ((u.width * h') % u32size) Cell.Dead).length = u.width * h'
    rw [List.length_replicate, Nat.mod_eq_of_lt hov]

/-- C8 counterexample: `render` is not a function of the cell sequence alone —
the same six cells render as three lines of two glyphs or two lines of three
glyphs depending on the stored width, both grids valid. -/
theorem render_not_cells_function :
    Valid uRA ∧ Valid uRB ∧ uRA.cells = uRB.cells ∧ uRA.render ≠ uRB.render := by
  refine ⟨by decide, by decide, rfl, by decide⟩

/-- C8 (amended): on a valid grid `render` succeeds and returns exactly
`height` rows, each of exactly `width` glyphs drawn from the two fixed glyphs,
each row terminated by a line break; the output is a deterministic function of
the cell sequence and the width (no side effects in this pure model). -/
theorem render_shape (u : Universe) (hv : Valid u) :
    ∃ (s : String) (rows : List (List Char)), u.render = some s ∧
      s = String.join (rows.map (fun r => String.mk r ++ "\n")) ∧
      rows.length = u.height ∧
      (∀ r ∈ rows, r.length = u.width ∧ ∀ ch ∈ r, ch = '◻' ∨ ch = '◼') ∧
      (∀ v : Universe, v.cells = u.cells → v.width = u.width → v.render = u.render) := by
  obtain ⟨hlen, hw2, hwle, hh2, hhle⟩ := hv
  have hw0 : ¬(u.width = 0) := by omega
  have hkl : u.cells.length = u.height * u.width := by rw [hlen, Nat.mul_comm]
  obtain ⟨hclen, hcall⟩ := chunks_spec u.width (by omega) u.height u.cells hkl
  refine ⟨String.join ((chunks u.width u.cells).map
      (fun line => String.mk (line.map glyph) ++ "\n")),
    (chunks u.width u.cells).map (fun line => line.map glyph),
    ?_, ?_, ?_, ?_, ?_⟩
  · unfold Universe.render
    rw [if_neg hw0]
  · rw [List.map_map]
    rfl
  · rw [List.length_map, hclen]
  · intro r hr
    obtain ⟨line, hline, rfl⟩ := List.mem_map.mp hr
    refine ⟨by rw [List.length_map]; exact hcall line hline, ?_⟩
    intro ch hch
    obtain ⟨c, hc, rfl⟩ := List.mem_map.mp hch
    cases c
    · left
      rfl
    · right
      rfl
  · intro v h1 h2
    unfold Universe.render
    rw [h1, h2]

theorem render_shape_witness :
    ∃ (s : String) (rows : List (List Char)), Universe.render u22 = some s ∧
      s = String.join (rows.map (fun r => String.mk r ++ "\n")) ∧
      rows.length = u22.height ∧
      (∀ r ∈ rows, r.length = u22.width ∧ ∀ ch ∈ r, ch = '◻' ∨ ch = '◼') ∧
      (∀ v : Universe, v.cells = u22.cells → v.width = u22.width → v.render = u22.render) :=
  render_shape u22 (by decide)

end GameOfLife
